import Mathlib

/-!
Verification of the document-classification and quality-scored extraction
engine of the tax-return-tools repository.

The Python sources are shallowly embedded:
* monetary amounts (Python floats holding dollar values) are modelled as `ℚ`;
* Python integers are modelled as `ℤ` (or `ℕ` for indices/priorities);
* Python strings as Lean `String`, with ASCII upper/lower casing;
* regular-expression searches, which cannot be embedded shallowly, are
  abstracted as oracle functions recording only the information the
  surrounding control flow consumes (whether a pattern matched and what its
  captured group was); every other piece of control flow is translated
  line by line from the source.
-/

namespace TaxDocs

/-! ## String helpers

`strContains hay needle` models the Python expression `needle in hay`
(substring containment).  `upperStr`/`lowerStr` model `str.upper()` /
`str.lower()` for the ASCII texts the tool works on. -/

/-- Substring containment on character lists: some suffix of `hay` starts
with `needle`.  Models Python `needle in hay`. -/
def listContainsSub (hay needle : List Char) : Bool :=
  match hay with
  | [] => needle.isEmpty
  | _ :: t => needle.isPrefixOf hay || listContainsSub t needle

/-- Python `needle in hay` for strings. -/
def strContains (hay needle : String) : Bool :=
  listContainsSub hay.data needle.data

/-- Python `s.upper()` (ASCII). -/
def upperStr (s : String) : String := ⟨s.data.map Char.toUpper⟩

/-- Python `s.lower()` (ASCII). -/
def lowerStr (s : String) : String := ⟨s.data.map Char.toLower⟩

/-! ## Python `round(x, 2)`

CPython rounds to the nearest multiple of `1/100`, breaking ties to the
even multiple ("banker's rounding").  `rhe` is round-half-to-even to an
integer, `round2` the two-decimal version used by `parse_w2`. -/

/-- Round half to even, to an integer. -/
def rhe (q : ℚ) : ℤ :=
  if q - ⌊q⌋ < 1/2 then ⌊q⌋
  else if 1/2 < q - ⌊q⌋ then ⌊q⌋ + 1
  else if Even ⌊q⌋ then ⌊q⌋ else ⌊q⌋ + 1

/-- Python `round(q, 2)`. -/
def round2 (q : ℚ) : ℚ := (rhe (100 * q) : ℚ) / 100

/-! ## Content classifier (`document_review.classify_by_content`)

The classifier is a chain of substring tests over the upper-cased text.
The only pieces that use regular expressions are (a) the compact-W-2
layout detector, (b) the employer/payer name extractors and (c) the two
amount-pattern cascades of the consolidated-1099 branch; those are
abstracted as a `ContentOracle`, one field per regex site, recording the
value the Python code derives from the regex result.  All branching is
translated directly from the source. -/

/-- Oracle for the regex sites of `classify_by_content`.
* `compactW2 text` — whether `re.search(r'\d{2}-\d{7}\s*\n\s*[\d,]+\.\d{2}\s+[\d,]+\.\d{2}', text)` hit;
* `w2Payer text` — the employer name produced by the `emp_patterns` loop;
* `payerFromText text` — the result of `extract_payer_from_text(text)`;
* `divMatches text` / `intMatches text` — for each pattern of
  `div_patterns` / `int_patterns` in order, `some v` if the pattern
  matched and its group parsed as the float `v`, `none` otherwise. -/
structure ContentOracle where
  compactW2 : String → Bool
  w2Payer : String → String
  payerFromText : String → String
  divMatches : String → List (Option ℚ)
  intMatches : String → List (Option ℚ)

/-- The pattern cascade of the consolidated-1099 branch: the first
pattern that matches and parses wins; otherwise the amount stays `0`. -/
def firstAmt : List (Option ℚ) → ℚ
  | [] => 0
  | some v :: _ => v
  | none :: rest => firstAmt rest

/-- The `NON_W2_FORM_MARKERS` pre-scan list. -/
def nonW2FormMarkers : List String :=
  ["5498", "1099-SA", "1095-C", "1095-B", "1099-MISC", "1099-NEC", "1099-G"]

/-- `marker in text_upper` for the given text. -/
def tuc (text marker : String) : Bool := strContains (upperStr text) marker

/-- The `is_w2` decision of `classify_by_content`. -/
def isW2Text (O : ContentOracle) (text : String) : Bool :=
  if tuc text "SOCIAL SECURITY WAGES" then true
  else if nonW2FormMarkers.any (tuc text) then false
  else
    (tuc text "WAGE AND TAX STATEMENT" || tuc text "FORM W-2" ||
      tuc text "WAGES, TIPS" || tuc text "W-2 WAGE") || O.compactW2 text

/-- `classify_by_content(text)`: `(form_type, payer, priority)` with
`none` form type for the final `(None, '', 99)` fall-through. -/
def classifyByContent (O : ContentOracle) (text : String) :
    Option String × String × ℕ :=
  if isW2Text O text then (some "W-2", O.w2Payer text, 1)
  else
    let hasDiv := tuc text "1099-DIV" || tuc text "DIVIDENDS AND DISTRIBUTIONS"
    let hasInt := tuc text "1099-INT" || tuc text "INTEREST INCOME"
    if hasDiv && hasInt then
      let divAmt := firstAmt (O.divMatches text)
      let intAmt := firstAmt (O.intMatches text)
      let payer := O.payerFromText text
      if divAmt > intAmt ∧ divAmt > 0 then (some "1099-DIV", payer, 3)
      else if intAmt > 0 then (some "1099-INT", payer, 2)
      else if hasDiv then (some "1099-DIV", payer, 3)
      else (some "1099-INT", payer, 2)
    else if hasInt then (some "1099-INT", O.payerFromText text, 2)
    else if hasDiv then (some "1099-DIV", O.payerFromText text, 3)
    else if tuc text "1099-R" || tuc text "DISTRIBUTIONS FROM PENSIONS" then
      (some "1099-R", O.payerFromText text, 4)
    else if tuc text "SSA-1099" || tuc text "SOCIAL SECURITY BENEFIT" then
      (some "SSA-1099", "Social Security Admin", 5)
    else if tuc text "1099-B" || tuc text "PROCEEDS FROM BROKER" then
      (some "1099-B", O.payerFromText text, 6)
    else if tuc text "1098-T" || tuc text "TUITION STATEMENT" then
      (some "1098-T", O.payerFromText text, 7)
    else if tuc text "1098" && tuc text "MORTGAGE" then
      (some "1098", O.payerFromText text, 7)
    else if tuc text "1099-Q" || tuc text "QUALIFIED EDUCATION" then
      (some "1099-Q", O.payerFromText text, 8)
    else if tuc text "1099-NEC" || tuc text "NONEMPLOYEE COMPENSATION" then
      (some "1099-NEC", O.payerFromText text, 8)
    else if tuc text "1099-MISC" then
      (some "1099-MISC", O.payerFromText text, 8)
    else if tuc text "1099-G" || tuc text "GOVERNMENT PAYMENTS" ||
        tuc text "UNEMPLOYMENT COMPENSATION" then
      (some "1099-G", O.payerFromText text, 8)
    else if tuc text "K-1" || tuc text "SCHEDULE K-1" then
      (some "K-1", O.payerFromText text, 8)
    else if tuc text "1095" || tuc text "HEALTH COVERAGE" then
      (some "1095", "", 9)
    else if tuc text "PROPERTY TAX" || tuc text "AD VALOREM" ||
        tuc text "TAX COLLECTOR" then
      (some "Property Tax", "", 9)
    else (none, "", 99)

/-- An oracle for a text on which none of `classify_by_content`'s regexes
match: every cascade entry misses and every name extractor returns `''`.
This is the faithful oracle for texts (such as `"1099-DIV 1099-INT"`)
that contain no digit-with-two-decimals amounts and no name-like lines. -/
def zeroOracle : ContentOracle where
  compactW2 := fun _ => false
  w2Payer := fun _ => ""
  payerFromText := fun _ => ""
  divMatches := fun _ => [none, none, none, none]
  intMatches := fun _ => [none, none, none]

/-- Oracle whose dividend cascade hits its first pattern with `$500.00`
and whose interest cascade hits its second pattern with `$500.00`. -/
def tieOracle : ContentOracle where
  compactW2 := fun _ => false
  w2Payer := fun _ => ""
  payerFromText := fun _ => ""
  divMatches := fun _ => [some 500, none, none, none]
  intMatches := fun _ => [none, some 500, none]

/-! ## Multi-form page splitter (`document_review.classify_pdf_pages`)

`classify_pdf_pages` classifies every page (pages with fewer than 50
characters of text get `(i, None, '', 99)`, all others the
`classify_by_content` triple) and then sweeps the per-page
classifications into groups of consecutive pages.  We embed the sweep
over an arbitrary list of per-page classifications; the page index of a
classification is its position in the list, exactly as `enumerate`
produces it in the source. -/

/-- One page's classification: the `(form_type, payer, priority)` part of
the tuples in `page_classes` (the index is the list position). -/
structure PageCls where
  formType : Option String
  payer : String
  priority : ℕ
deriving DecidableEq, Repr

/-- One output group: `(page_indices, category, payer, priority)`. -/
structure PageGroup where
  pages : List ℕ
  category : String
  payer : String
  priority : ℕ
deriving DecidableEq, Repr

/-- Python `current_type or 'Other'`: `None` and the empty string are
falsy, anything else is itself. -/
def pyOrOther : Option String → String
  | none => "Other"
  | some s => if s = "" then "Other" else s

/-- The loop state of the grouping sweep: accumulated groups plus the
open group (`current_pages`, `current_type`, `current_payer`,
`current_priority`). -/
structure SplitState where
  groups : List PageGroup
  curPages : List ℕ
  curType : Option String
  curPayer : String
  curPrio : ℕ

/-- `groups.append((list(current_pages), current_type or 'Other', ...))`. -/
def flushGroup (s : SplitState) : PageGroup :=
  ⟨s.curPages, pyOrOther s.curType, s.curPayer, s.curPrio⟩

/-- One iteration of the sweep over `page_classes[1:]`. -/
def stepPage (s : SplitState) (ip : ℕ × PageCls) : SplitState :=
  match ip.2.formType with
  | none => { s with curPages := s.curPages ++ [ip.1] }
  | some t =>
    if s.curType = some t then
      { s with
        curPages := s.curPages ++ [ip.1],
        curPayer := if ip.2.payer ≠ "" ∧ s.curPayer = "" then ip.2.payer else s.curPayer }
    else
      { groups := s.groups ++ [flushGroup s], curPages := [ip.1], curType := some t,
        curPayer := ip.2.payer, curPrio := ip.2.priority }

/-- Run the sweep to completion and flush the last open group. -/
def runSplit (s : SplitState) (l : List (ℕ × PageCls)) : List PageGroup :=
  (l.foldl stepPage s).groups ++ [flushGroup (l.foldl stepPage s)]

/-- `classify_pdf_pages`, given the per-page classifications: `none` for
"treat as a single document" (at most two pages, or at most one distinct
non-null form type), otherwise the list of page groups. -/
def classifyPdfPages (pcs : List PageCls) : Option (List PageGroup) :=
  if pcs.length ≤ 2 then none
  else
    match pcs with
    | [] => none
    | p0 :: rest =>
      if ((pcs.filterMap (·.formType)).dedup).length ≤ 1 then none
      else some (runSplit ⟨[], [0], p0.formType, p0.payer, p0.priority⟩ (rest.enumFrom 1))

/-- Membership of two page indices in one common output group. -/
def inSameGroup (gs : List PageGroup) (a b : ℕ) : Prop :=
  ∃ g ∈ gs, a ∈ g.pages ∧ b ∈ g.pages

/-- Concatenation of the page-index lists of a list of groups. -/
def pagesOf : List PageGroup → List ℕ
  | [] => []
  | g :: gs => g.pages ++ pagesOf gs

/-! ## Priority sorter (`document_review.sort_pdfs_by_category`)

The final statement `categorized.sort(key=lambda x: (x[0], x[3].name.lower()))`
is a stable sort of the categorized tuples by priority and lower-cased
file name.  `List.mergeSort` is a stable sort and so is CPython's
`list.sort`. -/

/-- One categorized entry `(priority, category, payer, pdf_path, page_indices)`;
`name` is `pdf_path.name`, the file name used by the sort key. -/
structure SortEntry where
  priority : ℕ
  category : String
  payer : String
  name : String
  pages : Option (List ℕ)
deriving DecidableEq, Repr

/-- Lexicographic comparison of character lists by code point — the
order Python uses to compare the second component of the sort key. -/
def charListLE : List Char → List Char → Bool
  | [], _ => true
  | _ :: _, [] => false
  | a :: as, b :: bs => if a < b then true else if b < a then false else charListLE as bs

/-- The comparison induced by the key `(x[0], x[3].name.lower())`:
lexicographic on priority, then on the lower-cased file name. -/
def keyLE (a b : SortEntry) : Bool :=
  decide (a.priority < b.priority) ||
    (decide (a.priority = b.priority) &&
      charListLE (lowerStr a.name).data (lowerStr b.name).data)

/-- `categorized.sort(key=lambda x: (x[0], x[3].name.lower()))`. -/
def sortByCategory (l : List SortEntry) : List SortEntry := l.mergeSort keyLE

/-! ## Quality-tracked amount extractor
(`parse_source_docs.extract_amount_with_quality`)

The regex sites are abstracted the same way as for the classifier: the
extractor is given, for each pattern in order, `none` if `re.search`
found nothing (or the match had no capture group, the `IndexError`
branch) and `some raw` if it captured the text `raw`; `float()` parsing
of the cleaned text is the oracle `parse` (`none` models `ValueError`). -/

/-- The quality dict built by `extract_amount_with_quality`. -/
structure FieldQuality where
  field : String
  found : Bool
  patternAttempts : ℕ
  confidence : ℤ
  rawMatch : Option String
  issues : List String
deriving DecidableEq, Repr

/-- Remove leading and trailing whitespace (Python `str.strip()`). -/
def trimChars (l : List Char) : List Char :=
  ((l.dropWhile Char.isWhitespace).reverse.dropWhile Char.isWhitespace).reverse

/-- `raw.replace(',', '').replace('$', '').strip()`: dropping every comma
and dollar sign and stripping surrounding whitespace. -/
def cleanAmtStr (s : String) : String :=
  ⟨trimChars (s.data.filter (fun c => c ≠ ',' ∧ c ≠ '$'))⟩

/-- `len(amt_str.split('.')[-1])`: the length of the segment after the
last `'.'` (the whole string if there is no `'.'`). -/
def fracLen (s : String) : ℕ :=
  (s.data.reverse.takeWhile (fun c => c ≠ '.')).length

/-- `'.' in amt_str and len(amt_str.split('.')[-1]) != 2`. -/
def decBad (s : String) : Bool :=
  s.data.contains '.' && decide (fracLen s ≠ 2)

/-- The loop body of `extract_amount_with_quality`, recursing over the
per-pattern match results with the 1-based attempt counter and the
accumulated quality dict. -/
def extractAux (parse : String → Option ℚ) (dflt : ℚ) :
    ℕ → FieldQuality → List (Option String) → ℚ × FieldQuality
  | _, q, [] => (dflt, { q with confidence := 0 })
  | attempt, q, m :: rest =>
    let q1 := { q with patternAttempts := attempt }
    match m with
    | none => extractAux parse dflt (attempt + 1) q1 rest
    | some raw =>
      let q2 := { q1 with rawMatch := some raw }
      let amtStr := cleanAmtStr raw
      match parse amtStr with
      | none => extractAux parse dflt (attempt + 1) q2 rest
      | some value =>
        let base : ℤ := max (100 - ((attempt : ℤ) - 1) * 15) 40
        let p1 : List String × ℤ :=
          if value < 0 then (q2.issues ++ ["Negative value"], base - 30)
          else (q2.issues, base)
        let p2 : List String × ℤ :=
          if value > 10000000 then (p1.1 ++ ["Unusually high value"], p1.2 - 20)
          else p1
        let p3 : List String × ℤ :=
          if decBad amtStr then (p2.1 ++ ["Unusual decimal places"], p2.2 - 10)
          else p2
        (value, { q2 with found := true, confidence := max p3.2 10, issues := p3.1 })

/-- `extract_amount_with_quality(text, patterns, field_name, default)`,
over the oracle describing what each pattern matched on the text. -/
def extractAmountWithQuality (ms : List (Option String))
    (parse : String → Option ℚ) (fieldName : String) (dflt : ℚ) :
    ℚ × FieldQuality :=
  extractAux parse dflt 1 ⟨fieldName, false, 0, 0, none, []⟩ ms

/-- The confidence formula of the specification: base
`max(100 - 15*(k-1), 40)`, minus 30 for a negative value, minus 20 for a
value over ten million, minus 10 for non-standard decimal precision,
floored at 10. -/
def specConfidence (k : ℕ) (v : ℚ) (amtStr : String) : ℤ :=
  max (max (100 - 15 * ((k : ℤ) - 1)) 40
    - (if v < 0 then 30 else 0)
    - (if v > 10000000 then 20 else 0)
    - (if decBad amtStr then 10 else 0)) 10

/-- A concrete `float()` oracle for witnesses: parses exactly the
cleaned text `"1234.567"`. -/
def sampleParse : String → Option ℚ :=
  fun s => if s = "1234.567" then some (1234567/1000) else none

/-! ## Overall-confidence aggregation
(`parse_source_docs.ExtractionResult.calculate_overall_confidence` and
`parse_source_docs.add_quality_metadata`) -/

/-- `confidences = [q['confidence'] for q in field_quality.values() if q['found']]`. -/
def foundConfs (qs : List FieldQuality) : List ℤ :=
  (qs.filter (fun q => q.found)).map (fun q => q.confidence)

/-- `overall = sum(confidences) // len(confidences) if confidences else 0`
(Python `//` on ints is `Int.fdiv`). -/
def overallBaseCode (qs : List FieldQuality) : ℤ :=
  if (foundConfs qs).isEmpty then 0 else ((foundConfs qs).sum).fdiv (foundConfs qs).length

/-- `ExtractionResult.calculate_overall_confidence` followed by the final
clamp, as a function of the field-quality values and the penalty counts.
Mirrors the source order: empty-quality early return of 50, mean over
found fields, OCR cap, per-missing and per-math-error deductions, clamp
at 0. -/
def calcOverallConfidence (qs : List FieldQuality) (isOcr : Bool)
    (nMissing nMath : ℕ) : ℤ :=
  if qs.isEmpty then 50
  else
    max ((if isOcr then min (overallBaseCode qs) 75 else overallBaseCode qs)
      - (nMissing : ℤ) * 10 - (nMath : ℤ) * 15) 0

/-- The overall-confidence computation of `add_quality_metadata`: same
mean, no early 50, OCR cap at 75, missing-required deduction, clamp. -/
def addQualityOverall (qs : List FieldQuality) (isOcr : Bool)
    (nMissing : ℕ) : ℤ :=
  max ((if isOcr then min (overallBaseCode qs) 75 else overallBaseCode qs)
    - (nMissing : ℤ) * 10) 0

/-- The specification's formula for the pre-cap, pre-deduction overall
confidence: the floor of the rational mean of the confidences of the
found fields, and 0 when no field was found. -/
def specFloorMeanFound (qs : List FieldQuality) : ℤ :=
  if (foundConfs qs).isEmpty then 0
  else ⌊(((foundConfs qs).sum : ℚ) / ((foundConfs qs).length : ℚ))⌋

/-! ## W-2 consistency repair (`parse_source_docs.parse_w2`, the box-3/4
versus box-5/6 rate-based swap/backfill logic)

The repair reads and writes the six box values of the `data` dict; all
amounts are `ℚ`.  `repairBlockA` is the first `if` block (lines
"Validate and correct potential Box 3/4 vs 5/6 mix-ups"), `repairBlockB`
the second one ("Additional check: if Box 5/6 equals Box 1/2"). -/

/-- The six W-2 box values the repair logic reads and writes. -/
structure W2Boxes where
  box1 : ℚ
  box2 : ℚ
  box3 : ℚ
  box4 : ℚ
  box5 : ℚ
  box6 : ℚ
deriving DecidableEq, Repr

/-- The Medicare rate band test `0.012 < t/w < 0.018` on a positive-wage
pair, as the specification phrases it. -/
def mediRateBand (w t : ℚ) : Prop :=
  0 < w ∧ 12/1000 < t / w ∧ t / w < 18/1000

/-- The Social-Security rate band test `0.055 < t/w < 0.070` on a
positive-wage pair. -/
def ssRateBand (w t : ℚ) : Prop :=
  0 < w ∧ 55/1000 < t / w ∧ t / w < 70/1000

instance (w t : ℚ) : Decidable (mediRateBand w t) := by
  unfold mediRateBand; infer_instance

instance (w t : ℚ) : Decidable (ssRateBand w t) := by
  unfold ssRateBand; infer_instance

/-- The guard under which the first repair block swaps the two full
pairs: boxes 3/4 positive with rate in the Medicare band, and boxes 5/6
positive with rate in the SS band. -/
def fullSwapFires (d : W2Boxes) : Prop :=
  0 < d.box3 ∧ 0 < d.box4 ∧
    (12/1000 < d.box4 / d.box3 ∧ d.box4 / d.box3 < 18/1000) ∧
    0 < d.box5 ∧ 0 < d.box6 ∧
    (55/1000 < d.box6 / d.box5 ∧ d.box6 / d.box5 < 70/1000)

instance (d : W2Boxes) : Decidable (fullSwapFires d) := by
  unfold fullSwapFires; infer_instance

/-- The guard of the first repair block: boxes 3/4 positive and their
rate in the Medicare band. -/
def mediHolds (d : W2Boxes) : Prop :=
  (0 < d.box3 ∧ 0 < d.box4) ∧ (12/1000 < d.box4 / d.box3 ∧ d.box4 / d.box3 < 18/1000)

/-- First repair block: rate-based swap or Medicare backfill. -/
def repairBlockA (d : W2Boxes) : W2Boxes :=
  if 0 < d.box3 ∧ 0 < d.box4 then
    if 12/1000 < d.box4 / d.box3 ∧ d.box4 / d.box3 < 18/1000 then
      if 0 < d.box5 ∧ 0 < d.box6 then
        if 55/1000 < d.box6 / d.box5 ∧ d.box6 / d.box5 < 70/1000 then
          { d with box3 := d.box5, box4 := d.box6, box5 := d.box3, box6 := d.box4 }
        else
          { d with box5 := d.box3, box6 := d.box4,
                   box4 := round2 (d.box3 * (62/1000)) }
      else
        { d with box5 := d.box3, box6 := d.box4,
                 box4 := round2 (d.box3 * (62/1000)) }
    else d
  else d

/-- Second repair block: boxes 5/6 duplicating boxes 1/2 means the
Medicare pattern failed; rebuild 5/6 (and possibly 4) from boxes 3/4. -/
def repairBlockB (d : W2Boxes) : W2Boxes :=
  if |d.box5 - d.box1| < 1/100 ∧ |d.box6 - d.box2| < 1/100 then
    if 0 < d.box3 ∧ 0 < d.box4 then
      if 12/1000 < d.box4 / d.box3 ∧ d.box4 / d.box3 < 18/1000 then
        { d with box5 := d.box3, box6 := d.box4,
                 box4 := round2 (d.box3 * (62/1000)) }
      else if 55/1000 < d.box4 / d.box3 ∧ d.box4 / d.box3 < 70/1000 then
        { d with box5 := d.box3, box6 := round2 (d.box3 * (145/10000)) }
      else d
    else d
  else d

/-- The whole consistency repair of `parse_w2` (both blocks, in source
order). -/
def w2Repair (d : W2Boxes) : W2Boxes := repairBlockB (repairBlockA d)

/-! ## Helper lemmas -/

theorem rhe_near (q : ℚ) : |(rhe q : ℚ) - q| ≤ 1/2 := by
  unfold rhe
  have hfl : (⌊q⌋ : ℚ) ≤ q := Int.floor_le q
  have hfl' : q - 1 < (⌊q⌋ : ℚ) := Int.sub_one_lt_floor q
  split
  · rename_i h
    rw [abs_le]
    constructor <;> linarith
  · split
    · rename_i h h'
      rw [abs_le]
      constructor <;> push_cast <;> linarith
    · rename_i h h'
      have hf : q - (⌊q⌋ : ℚ) = 1/2 := le_antisymm (not_lt.mp h') (not_lt.mp h)
      split <;> (rw [abs_le]; constructor <;> push_cast <;> linarith)

theorem round2_near (q : ℚ) : |round2 q - q| ≤ 1/200 := by
  unfold round2
  have h := rhe_near (100 * q)
  have heq : (rhe (100 * q) : ℚ) / 100 - q = ((rhe (100 * q) : ℚ) - 100 * q) / 100 := by
    ring
  rw [heq, abs_div]
  have h100 : |(100 : ℚ)| = 100 := by norm_num
  rw [h100, div_le_iff₀ (by norm_num : (0:ℚ) < 100)]
  linarith

/-- A positive `round2` value is at least `1/100`. -/
theorem round2_pos_ge (q : ℚ) (h : 0 < round2 q) : 1/100 ≤ round2 q := by
  unfold round2 at h ⊢
  have hz : (0 : ℤ) < rhe (100 * q) := by
    by_contra hle
    push_neg at hle
    have : ((rhe (100 * q) : ℚ)) ≤ 0 := by exact_mod_cast hle
    nlinarith
  have : (1 : ℤ) ≤ rhe (100 * q) := hz
  have : (1 : ℚ) ≤ (rhe (100 * q) : ℚ) := by exact_mod_cast this
  linarith

/-- The synthesized SS tax `round(w * 0.062, 2)` never lands the 3/4 pair
back in the Medicare rate band: its rate over the unchanged wages `w` is
never strictly between 1.2% and 1.8%. -/
theorem backfill_not_medi (w : ℚ) (hw : 0 < w) :
    ¬ (0 < round2 (w * (62/1000)) ∧
       12/1000 < round2 (w * (62/1000)) / w ∧
       round2 (w * (62/1000)) / w < 18/1000) := by
  rintro ⟨hpos, _, hub⟩
  set r := round2 (w * (62/1000)) with hr
  have hnear : |r - w * (62/1000)| ≤ 1/200 := round2_near _
  rw [abs_le] at hnear
  have hub' : r < (18/1000) * w := by
    rw [div_lt_iff₀ hw] at hub
    linarith
  have hwsmall : w < 5/44 := by nlinarith [hnear.1]
  have hge : 1/100 ≤ r := round2_pos_ge _ hpos
  nlinarith

/-! ## Claim C1 -/

/-- C1: any text whose upper-cased form contains the exclusive W-2 marker
`SOCIAL SECURITY WAGES` is classified as form type `W-2` with priority 1,
whatever the rest of the text contains (in particular whatever other form
markers, including the negative-override markers, are present) and
whatever the regex sites report. -/
theorem claim1_exclusive_w2_marker (O : ContentOracle) (text : String)
    (h : strContains (upperStr text) "SOCIAL SECURITY WAGES" = true) :
    (classifyByContent O text).1 = some "W-2" ∧ (classifyByContent O text).2.2 = 1 := by
  unfold classifyByContent isW2Text tuc
  rw [h]
  simp

/-- Witness for C1 at a text that also carries all the negative-override
markers named by the claim. -/
theorem claim1_witness :
    strContains (upperStr "Social Security Wages 5498 1095-B 1099-SA 1099-MISC 1099-NEC 1099-G")
      "SOCIAL SECURITY WAGES" = true ∧
    (classifyByContent zeroOracle
        "Social Security Wages 5498 1095-B 1099-SA 1099-MISC 1099-NEC 1099-G").1 = some "W-2" ∧
    (classifyByContent zeroOracle
        "Social Security Wages 5498 1095-B 1099-SA 1099-MISC 1099-NEC 1099-G").2.2 = 1 :=
  ⟨by decide, claim1_exclusive_w2_marker zeroOracle _ (by decide)⟩

/-! ## Claim C2 -/

/-- C2, counterexample: on a text carrying both section markers on which
no amount pattern matches (both cascade totals are 0), the classifier
returns `1099-DIV` with priority 3, not `1099-INT` with priority 2 as the
claim states for the all-zero case: the all-zero fall-through hits the
`elif has_div` arm, and `has_div` is true in this branch. -/
theorem claim2_counterexample :
    firstAmt (zeroOracle.divMatches "1099-DIV 1099-INT") = 0 ∧
    firstAmt (zeroOracle.intMatches "1099-DIV 1099-INT") = 0 ∧
    classifyByContent zeroOracle "1099-DIV 1099-INT" = (some "1099-DIV", "", 3) :=
  ⟨rfl, rfl, by decide⟩

/-- C2, amended: in the consolidated branch (both markers present, text
not classified as W-2) the classifier picks the form with the larger
nonzero cascade total; an exact nonzero tie goes to `1099-INT` with
priority 2; but when both totals are zero (or unextractable, which
leaves them zero) the result is `1099-DIV` with priority 3. -/
theorem claim2_consolidated_decision (O : ContentOracle) (text : String)
    (hw : isW2Text O text = false)
    (hd : (tuc text "1099-DIV" || tuc text "DIVIDENDS AND DISTRIBUTIONS") = true)
    (hi : (tuc text "1099-INT" || tuc text "INTEREST INCOME") = true) :
    (firstAmt (O.intMatches text) < firstAmt (O.divMatches text) ∧
        0 < firstAmt (O.divMatches text) →
      classifyByContent O text = (some "1099-DIV", O.payerFromText text, 3)) ∧
    (firstAmt (O.divMatches text) < firstAmt (O.intMatches text) ∧
        0 < firstAmt (O.intMatches text) →
      classifyByContent O text = (some "1099-INT", O.payerFromText text, 2)) ∧
    (firstAmt (O.divMatches text) = firstAmt (O.intMatches text) ∧
        0 < firstAmt (O.intMatches text) →
      classifyByContent O text = (some "1099-INT", O.payerFromText text, 2)) ∧
    (firstAmt (O.divMatches text) = 0 ∧ firstAmt (O.intMatches text) = 0 →
      classifyByContent O text = (some "1099-DIV", O.payerFromText text, 3)) := by
  unfold classifyByContent
  rw [hw, hd, hi]
  simp only [Bool.false_eq_true, if_false, Bool.and_self, if_true]
  refine ⟨?_, ?_, ?_, ?_⟩ <;> intro hc
  · rw [if_pos ⟨hc.1, hc.2⟩]
  · rw [if_neg (by rintro ⟨h1, _⟩; exact absurd hc.1 (not_lt.mpr (le_of_lt h1))), if_pos hc.2]
  · rw [if_neg (by rintro ⟨h1, _⟩; rw [hc.1] at h1; exact lt_irrefl _ h1), if_pos hc.2]
  · rw [if_neg (by rintro ⟨_, h2⟩; rw [hc.1] at h2; exact lt_irrefl _ h2),
      if_neg (by rw [hc.2]; exact lt_irrefl 0)]

/-- Witness for C2's amended statement: the documented `$500.00` exact
tie classifies as `1099-INT`, priority 2. -/
theorem claim2_witness :
    isW2Text tieOracle "1099-DIV 1099-INT" = false ∧
    classifyByContent tieOracle "1099-DIV 1099-INT" = (some "1099-INT", "", 2) :=
  ⟨by decide,
    (claim2_consolidated_decision tieOracle "1099-DIV 1099-INT" (by decide) (by decide)
      (by decide)).2.2.1 ⟨rfl, by decide⟩⟩

/-! ## Claim C8 -/

theorem charListLE_trans : ∀ x y z : List Char,
    charListLE x y = true → charListLE y z = true → charListLE x z = true := by
  intro x
  induction x with
  | nil => intro y z _ _; rfl
  | cons a as ih =>
    intro y z h1 h2
    cases y with
    | nil => simp [charListLE] at h1
    | cons b bs =>
      cases z with
      | nil => simp [charListLE] at h2
      | cons c cs =>
        simp only [charListLE] at h1 h2 ⊢
        rcases lt_trichotomy a b with hab | hab | hab
        · rcases lt_trichotomy b c with hbc | hbc | hbc
          · rw [if_pos (lt_trans hab hbc)]
          · subst hbc; rw [if_pos hab]
          · rw [if_neg (asymm hbc), if_pos hbc] at h2; cases h2
        · subst hab
          rw [if_neg (lt_irrefl a), if_neg (lt_irrefl a)] at h1
          rcases lt_trichotomy a c with hac | hac | hac
          · rw [if_pos hac]
          · subst hac
            rw [if_neg (lt_irrefl a), if_neg (lt_irrefl a)] at h2 ⊢
            exact ih bs cs h1 h2
          · rw [if_neg (asymm hac), if_pos hac] at h2; cases h2
        · rw [if_neg (asymm hab), if_pos hab] at h1; cases h1

theorem charListLE_antisymm : ∀ x y : List Char,
    charListLE x y = true → charListLE y x = true → x = y := by
  intro x
  induction x with
  | nil =>
    intro y h1 h2
    cases y with
    | nil => rfl
    | cons b bs => simp [charListLE] at h2
  | cons a as ih =>
    intro y h1 h2
    cases y with
    | nil => simp [charListLE] at h1
    | cons b bs =>
      simp only [charListLE] at h1 h2
      rcases lt_trichotomy a b with hab | hab | hab
      · rw [if_neg (asymm hab), if_pos hab] at h2; cases h2
      · subst hab
        rw [if_neg (lt_irrefl a), if_neg (lt_irrefl a)] at h1 h2
        rw [ih bs h1 h2]
      · rw [if_neg (asymm hab), if_pos hab] at h1; cases h1

theorem charListLE_total : ∀ x y : List Char, (charListLE x y || charListLE y x) = true := by
  intro x
  induction x with
  | nil => intro y; simp [charListLE]
  | cons a as ih =>
    intro y
    cases y with
    | nil => simp [charListLE]
    | cons b bs =>
      simp only [charListLE, Bool.or_eq_true]
      rcases lt_trichotomy a b with hab | hab | hab
      · exact Or.inl (by rw [if_pos hab])
      · subst hab
        rw [if_neg (lt_irrefl a), if_neg (lt_irrefl a)]
        simpa using ih bs
      · exact Or.inr (by rw [if_pos hab])

theorem keyLE_trans (a b c : SortEntry) (h1 : keyLE a b = true) (h2 : keyLE b c = true) :
    keyLE a c = true := by
  unfold keyLE at *
  simp only [Bool.or_eq_true, Bool.and_eq_true, decide_eq_true_eq] at *
  rcases h1 with h1 | ⟨h1e, h1s⟩ <;> rcases h2 with h2 | ⟨h2e, h2s⟩
  · exact Or.inl (h1.trans h2)
  · exact Or.inl (h2e ▸ h1)
  · exact Or.inl (h1e ▸ h2)
  · exact Or.inr ⟨h1e.trans h2e, charListLE_trans _ _ _ h1s h2s⟩

theorem keyLE_total (a b : SortEntry) : (keyLE a b || keyLE b a) = true := by
  unfold keyLE
  simp only [Bool.or_eq_true, Bool.and_eq_true, decide_eq_true_eq]
  rcases Nat.lt_trichotomy a.priority b.priority with h | h | h
  · exact Or.inl (Or.inl h)
  · have := charListLE_total (lowerStr a.name).data (lowerStr b.name).data
    simp only [Bool.or_eq_true] at this
    rcases this with hs | hs
    · exact Or.inl (Or.inr ⟨h, hs⟩)
    · exact Or.inr (Or.inr ⟨h.symm, hs⟩)
  · exact Or.inr (Or.inl h)

/-- C8, amended: the priority sorter is the stable sort of the
categorized entries by the key (priority ascending, lower-cased filename
ascending): the output is a permutation of the input, sorted by the key,
and stable (any key-ordered pair of entries keeps its input order).  The
filename tie-break is case-insensitive, and therefore it is not injective
on distinct filenames: two entries compare equal under the key exactly
when their priorities agree and their lower-cased filenames agree, so
distinct filenames differing only in case do tie (the tie is then
resolved by input order, via stability). -/
theorem claim8_sort_contract :
    (∀ l : List SortEntry, (sortByCategory l).Perm l) ∧
    (∀ l : List SortEntry, (sortByCategory l).Pairwise (fun a b => keyLE a b = true)) ∧
    (∀ (l : List SortEntry) (a b : SortEntry), keyLE a b = true → [a, b].Sublist l →
      [a, b].Sublist (sortByCategory l)) ∧
    (∀ a b : SortEntry, (keyLE a b = true ∧ keyLE b a = true) ↔
      (a.priority = b.priority ∧ lowerStr a.name = lowerStr b.name)) := by
  refine ⟨fun l => List.mergeSort_perm l keyLE,
          fun l => List.sorted_mergeSort keyLE_trans keyLE_total l,
          fun l a b hab h => List.pair_sublist_mergeSort keyLE_trans keyLE_total hab h,
          fun a b => ?_⟩
  unfold keyLE
  simp only [Bool.or_eq_true, Bool.and_eq_true, decide_eq_true_eq]
  constructor
  · rintro ⟨h1 | ⟨h1e, h1s⟩, h2 | ⟨h2e, h2s⟩⟩
    · exact absurd h2 (Nat.lt_asymm h1)
    · exact absurd h1 (h2e ▸ lt_irrefl _)
    · exact absurd h2 (h1e ▸ lt_irrefl _)
    · refine ⟨h1e, ?_⟩
      have hd := charListLE_antisymm _ _ h1s h2s
      cases hl : lowerStr a.name
      cases hl' : lowerStr b.name
      simp_all
  · rintro ⟨hp, hn⟩
    have hrefl : ∀ x : List Char, charListLE x x = true := by
      intro x
      induction x with
      | nil => rfl
      | cons c cs ihc => simp only [charListLE]; rw [if_neg (lt_irrefl c), if_neg (lt_irrefl c)]; exact ihc
    exact ⟨Or.inr ⟨hp, hn ▸ hrefl _⟩, Or.inr ⟨hp.symm, hn ▸ hrefl _⟩⟩

/-- Witness for C8's amended statement at a concrete three-entry list. -/
theorem claim8_witness :
    keyLE ⟨1, "W-2", "", "B.pdf", none⟩ ⟨1, "W-2", "", "b.PDF", none⟩ = true ∧
    [(⟨1, "W-2", "", "B.pdf", none⟩ : SortEntry), ⟨1, "W-2", "", "b.PDF", none⟩].Sublist
      (sortByCategory [⟨2, "1099-INT", "", "a.pdf", none⟩, ⟨1, "W-2", "", "B.pdf", none⟩,
        ⟨1, "W-2", "", "b.PDF", none⟩]) :=
  ⟨by decide,
    claim8_sort_contract.2.2.1 _ _ _ (by decide) (by decide)⟩

/-- C8, counterexample: the distinct filenames "Alpha.PDF" and
"alpha.pdf" compare equal under the sort key (both directions of `keyLE`
hold at equal priority), refuting "no two distinct filenames ever compare
equal under the key unless they are identical strings". -/
theorem claim8_counterexample :
    (⟨1, "W-2", "", "Alpha.PDF", none⟩ : SortEntry).name ≠
      (⟨1, "W-2", "", "alpha.pdf", none⟩ : SortEntry).name ∧
    keyLE ⟨1, "W-2", "", "Alpha.PDF", none⟩ ⟨1, "W-2", "", "alpha.pdf", none⟩ = true ∧
    keyLE ⟨1, "W-2", "", "alpha.pdf", none⟩ ⟨1, "W-2", "", "Alpha.PDF", none⟩ = true := by
  decide

/-! ## Claims C6 and C9 -/

theorem specConfidence_bounds (k : ℕ) (v : ℚ) (s : String) (hk : 1 ≤ k) :
    10 ≤ specConfidence k v s ∧ specConfidence k v s ≤ 100 := by
  unfold specConfidence
  have hk' : (1 : ℤ) ≤ (k : ℤ) := by exact_mod_cast hk
  constructor
  · exact le_max_right _ _
  · split_ifs <;> simp only [max_le_iff] <;> omega

theorem extractAux_found_spec (parse : String → Option ℚ) (dflt : ℚ) :
    ∀ (ms : List (Option String)) (k : ℕ) (q : FieldQuality), q.found = false → 1 ≤ k →
      (extractAux parse dflt k q ms).2.found = true →
      ∃ raw, (extractAux parse dflt k q ms).2.rawMatch = some raw ∧
        parse (cleanAmtStr raw) = some (extractAux parse dflt k q ms).1 ∧
        1 ≤ (extractAux parse dflt k q ms).2.patternAttempts ∧
        (extractAux parse dflt k q ms).2.confidence =
          specConfidence (extractAux parse dflt k q ms).2.patternAttempts
            (extractAux parse dflt k q ms).1 (cleanAmtStr raw) := by
  intro ms
  induction ms with
  | nil =>
    intro k q hq _ hfound
    simp only [extractAux] at hfound
    rw [hq] at hfound
    cases hfound
  | cons m rest ih =>
    intro k q hq hk hfound
    match m with
    | none =>
      simp only [extractAux] at hfound ⊢
      exact ih (k+1) _ hq (le_trans hk (Nat.le_succ k)) hfound
    | some raw =>
      simp only [extractAux] at hfound ⊢
      cases hp : parse (cleanAmtStr raw) with
      | none =>
        rw [hp] at hfound
        exact ih (k+1) _ hq (le_trans hk (Nat.le_succ k)) hfound
      | some v =>
        rw [hp] at hfound
        refine ⟨raw, rfl, by rw [hp], hk, ?_⟩
        simp only [specConfidence]
        split_ifs <;> ring_nf
  


/-- C6: whenever the quality-tracked extractor reports `found`, the
recorded confidence equals the claim's formula — base
`max(100 - 15*(k-1), 40)` at found-attempt index `k`, minus 30 for a
negative parsed value, minus 20 for a value over 10,000,000, minus 10
when the cleaned matched string has a decimal point but not exactly two
digits after it, floored at 10 — and hence lies in `[10, 100]`. -/
theorem claim6_extractor_confidence (ms : List (Option String)) (parse : String → Option ℚ)
    (fieldName : String) (dflt : ℚ)
    (hfound : (extractAmountWithQuality ms parse fieldName dflt).2.found = true) :
    (∃ raw, (extractAmountWithQuality ms parse fieldName dflt).2.rawMatch = some raw ∧
      parse (cleanAmtStr raw) = some (extractAmountWithQuality ms parse fieldName dflt).1 ∧
      (extractAmountWithQuality ms parse fieldName dflt).2.confidence =
        specConfidence (extractAmountWithQuality ms parse fieldName dflt).2.patternAttempts
          (extractAmountWithQuality ms parse fieldName dflt).1 (cleanAmtStr raw)) ∧
    10 ≤ (extractAmountWithQuality ms parse fieldName dflt).2.confidence ∧
    (extractAmountWithQuality ms parse fieldName dflt).2.confidence ≤ 100 := by
  obtain ⟨raw, h1, h2, hk, h3⟩ :=
    extractAux_found_spec parse dflt ms 1 ⟨fieldName, false, 0, 0, none, []⟩ rfl le_rfl hfound
  have hb := specConfidence_bounds
    (extractAmountWithQuality ms parse fieldName dflt).2.patternAttempts
    (extractAmountWithQuality ms parse fieldName dflt).1 (cleanAmtStr raw) hk
  exact ⟨⟨raw, h1, h2, h3⟩, h3 ▸ hb.1, h3 ▸ hb.2⟩

/-- Witness for C6: second-pattern match `"$1,234.567"` (three decimal
digits) parses to `1234.567`; confidence is `max(85 - 10, 10) = 75`. -/
theorem claim6_witness :
    (extractAmountWithQuality [none, some "$1,234.567"] sampleParse "box1_interest" 0).2.found
        = true ∧
    (∃ raw,
      (extractAmountWithQuality [none, some "$1,234.567"] sampleParse "box1_interest" 0).2.rawMatch
          = some raw ∧
      sampleParse (cleanAmtStr raw) =
        some (extractAmountWithQuality [none, some "$1,234.567"] sampleParse "box1_interest" 0).1 ∧
      (extractAmountWithQuality [none, some "$1,234.567"] sampleParse "box1_interest" 0).2.confidence =
        specConfidence
          (extractAmountWithQuality [none, some "$1,234.567"] sampleParse
            "box1_interest" 0).2.patternAttempts
          (extractAmountWithQuality [none, some "$1,234.567"] sampleParse "box1_interest" 0).1
          (cleanAmtStr raw)) ∧
    10 ≤ (extractAmountWithQuality [none, some "$1,234.567"] sampleParse
      "box1_interest" 0).2.confidence ∧
    (extractAmountWithQuality [none, some "$1,234.567"] sampleParse
      "box1_interest" 0).2.confidence ≤ 100 :=
  ⟨by decide, claim6_extractor_confidence _ sampleParse _ 0 (by decide)⟩

theorem extractAux_all_fail (parse : String → Option ℚ) (dflt : ℚ) :
    ∀ (ms : List (Option String)) (k : ℕ) (q : FieldQuality),
      (∀ m ∈ ms, ∀ raw, m = some raw → parse (cleanAmtStr raw) = none) →
      (extractAux parse dflt k q ms).1 = dflt ∧
      (extractAux parse dflt k q ms).2.found = q.found ∧
      (extractAux parse dflt k q ms).2.confidence = 0 := by
  intro ms
  induction ms with
  | nil => intro k q _; exact ⟨rfl, rfl, rfl⟩
  | cons m rest ih =>
    intro k q hall
    match m with
    | none =>
      simp only [extractAux]
      exact ih (k+1) _ (fun m hm => hall m (List.mem_cons_of_mem _ hm))
    | some raw =>
      have hp : parse (cleanAmtStr raw) = none :=
        hall (some raw) (List.mem_cons_self _ _) raw rfl
      simp only [extractAux]
      rw [hp]
      exact ih (k+1) _ (fun m hm => hall m (List.mem_cons_of_mem _ hm))

theorem extractAux_state_indep (parse : String → Option ℚ) (dflt : ℚ) :
    ∀ (ms : List (Option String)) (k k' : ℕ) (q q' : FieldQuality),
      q.found = q'.found →
      (extractAux parse dflt k q ms).1 = (extractAux parse dflt k' q' ms).1 ∧
      (extractAux parse dflt k q ms).2.found = (extractAux parse dflt k' q' ms).2.found := by
  intro ms
  induction ms with
  | nil => intro k k' q q' hf; exact ⟨rfl, hf⟩
  | cons m rest ih =>
    intro k k' q q' hf
    match m with
    | none =>
      simp only [extractAux]
      exact ih (k+1) (k'+1) _ _ hf
    | some raw =>
      simp only [extractAux]
      cases hp : parse (cleanAmtStr raw) with
      | none => exact ih (k+1) (k'+1) _ _ hf
      | some v => exact ⟨rfl, rfl⟩

/-- C9: the extractor's failure policy — if no pattern's captured text
parses, the caller-supplied default comes back with `found = False` and
confidence 0; and a pattern whose captured text fails to parse is
treated as a non-match, the cascade moving on to the next pattern (the
embedding is a total function, so no exception escapes). -/
theorem claim9_extractor_total (ms : List (Option String)) (parse : String → Option ℚ)
    (fieldName : String) (dflt : ℚ) :
    ((∀ m ∈ ms, ∀ raw, m = some raw → parse (cleanAmtStr raw) = none) →
      (extractAmountWithQuality ms parse fieldName dflt).1 = dflt ∧
      (extractAmountWithQuality ms parse fieldName dflt).2.found = false ∧
      (extractAmountWithQuality ms parse fieldName dflt).2.confidence = 0) ∧
    (∀ raw rest, ms = some raw :: rest → parse (cleanAmtStr raw) = none →
      (extractAmountWithQuality ms parse fieldName dflt).1 =
        (extractAmountWithQuality rest parse fieldName dflt).1 ∧
      (extractAmountWithQuality ms parse fieldName dflt).2.found =
        (extractAmountWithQuality rest parse fieldName dflt).2.found) := by
  constructor
  · intro hall
    exact extractAux_all_fail parse dflt ms 1 _ hall
  · rintro raw rest rfl hp
    unfold extractAmountWithQuality
    simp only [extractAux]
    rw [hp]
    exact extractAux_state_indep parse dflt rest 2 1 _ _ rfl

/-- Witness for C9 with two matching but unparseable patterns. -/
theorem claim9_witness :
    ((extractAmountWithQuality [some "n/a", some "--"] (fun _ => none) "box1_wages" 0).1 = 0 ∧
      (extractAmountWithQuality [some "n/a", some "--"] (fun _ => none) "box1_wages" 0).2.found
          = false ∧
      (extractAmountWithQuality [some "n/a", some "--"] (fun _ => none) "box1_wages" 0).2.confidence
          = 0) ∧
    ((extractAmountWithQuality [some "n/a", some "--"] (fun _ => none) "box1_wages" 0).1 =
      (extractAmountWithQuality [some "--"] (fun _ => none) "box1_wages" 0).1) :=
  ⟨(claim9_extractor_total [some "n/a", some "--"] (fun _ => none) "box1_wages" 0).1
      (fun _ _ _ _ => rfl),
    ((claim9_extractor_total [some "n/a", some "--"] (fun _ => none) "box1_wages" 0).2
      "n/a" [some "--"] rfl rfl).1⟩

/-! ## Claim C7 -/

theorem fdiv_eq_floor_mean (a : ℤ) (n : ℕ) : a.fdiv n = ⌊(a : ℚ) / (n : ℚ)⌋ := by
  rw [Rat.floor_intCast_div_natCast a n, Int.fdiv_eq_ediv _ (Int.natCast_nonneg n)]

theorem overallBase_eq_spec (qs : List FieldQuality) :
    overallBaseCode qs = specFloorMeanFound qs := by
  unfold overallBaseCode specFloorMeanFound
  by_cases h : (foundConfs qs).isEmpty
  · rw [if_pos h, if_pos h]
  · rw [if_neg h, if_neg h, fdiv_eq_floor_mean]

/-- C7, counterexample: an extraction record tracking no fields at all
("no field was found" holds vacuously) gets overall confidence 50 from
the early return, not 0 as the claim states. -/
theorem claim7_counterexample :
    foundConfs ([] : List FieldQuality) = [] ∧
    calcOverallConfidence [] false 0 0 = 50 ∧
    calcOverallConfidence [] false 0 0 ≠ 0 :=
  ⟨rfl, rfl, by decide⟩

/-- C7, amended: for every extraction record that tracks at least one
field, the overall confidence before the OCR cap and the
missing-required and math-error deductions equals the floor of the mean
of the confidences of the fields with `found = True`, and equals 0 when
no field was found; a record tracking no fields at all gets overall
confidence 50 outright.  The `add_quality_metadata` variant satisfies
the same mean formula with no special empty case. -/
theorem claim7_overall_confidence :
    (∀ (qs : List FieldQuality) (isOcr : Bool) (nMissing nMath : ℕ), qs ≠ [] →
      calcOverallConfidence qs isOcr nMissing nMath =
        max ((if isOcr then min (specFloorMeanFound qs) 75 else specFloorMeanFound qs)
          - (nMissing : ℤ) * 10 - (nMath : ℤ) * 15) 0) ∧
    (∀ qs : List FieldQuality, foundConfs qs = [] → specFloorMeanFound qs = 0) ∧
    (∀ (isOcr : Bool) (nMissing nMath : ℕ),
      calcOverallConfidence [] isOcr nMissing nMath = 50) ∧
    (∀ (qs : List FieldQuality) (isOcr : Bool) (nMissing : ℕ),
      addQualityOverall qs isOcr nMissing =
        max ((if isOcr then min (specFloorMeanFound qs) 75 else specFloorMeanFound qs)
          - (nMissing : ℤ) * 10) 0) := by
  refine ⟨?_, ?_, ?_, ?_⟩
  · intro qs isOcr nMissing nMath hne
    unfold calcOverallConfidence
    rw [if_neg (by simpa using hne), overallBase_eq_spec]
  · intro qs h
    unfold specFloorMeanFound
    rw [if_pos (by rw [h]; rfl)]
  · intro isOcr nMissing nMath
    rfl
  · intro qs isOcr nMissing
    unfold addQualityOverall
    rw [overallBase_eq_spec]

/-- Witness for C7: fields with confidences 85 and 80 found and one not
found give `floor((85+80)/2) = 82`. -/
theorem claim7_witness :
    calcOverallConfidence
        [⟨"box1_wages", true, 1, 85, none, []⟩, ⟨"box2_fed", true, 1, 80, none, []⟩,
          ⟨"employer_name", false, 0, 0, none, []⟩] false 0 0 = 82 ∧
    specFloorMeanFound
        [⟨"box1_wages", true, 1, 85, none, []⟩, ⟨"box2_fed", true, 1, 80, none, []⟩,
          ⟨"employer_name", false, 0, 0, none, []⟩] = 82 := by
  have hs : specFloorMeanFound
      [⟨"box1_wages", true, 1, 85, none, []⟩, ⟨"box2_fed", true, 1, 80, none, []⟩,
        ⟨"employer_name", false, 0, 0, none, []⟩] = 82 := by
    rw [← overallBase_eq_spec]
    decide
  have h := claim7_overall_confidence.1
    [⟨"box1_wages", true, 1, 85, none, []⟩, ⟨"box2_fed", true, 1, 80, none, []⟩,
      ⟨"employer_name", false, 0, 0, none, []⟩] false 0 0 (by decide)
  rw [hs] at h
  exact ⟨by rw [h]; decide, hs⟩

/-! ## Claims C3 and C10 (`classify_pdf_pages`) -/

theorem pagesOf_append (gs hs : List PageGroup) :
    pagesOf (gs ++ hs) = pagesOf gs ++ pagesOf hs := by
  induction gs with
  | nil => rfl
  | cons g gs ih => simp [pagesOf, ih]

theorem stepPage_none (s : SplitState) (i : ℕ) (pc : PageCls) (h : pc.formType = none) :
    stepPage s (i, pc) = { s with curPages := s.curPages ++ [i] } := by
  simp [stepPage, h]

theorem stepPage_same (s : SplitState) (i : ℕ) (pc : PageCls) (t : String)
    (h : pc.formType = some t) (hc : s.curType = some t) :
    stepPage s (i, pc) =
      { s with curPages := s.curPages ++ [i],
               curPayer := if pc.payer ≠ "" ∧ s.curPayer = "" then pc.payer
                           else s.curPayer } := by
  simp [stepPage, h, hc]

theorem stepPage_new (s : SplitState) (i : ℕ) (pc : PageCls) (t : String)
    (h : pc.formType = some t) (hc : ¬ s.curType = some t) :
    stepPage s (i, pc) =
      ⟨s.groups ++ [flushGroup s], [i], some t, pc.payer, pc.priority⟩ := by
  simp [stepPage, h, hc]

theorem runSplit_cons (s : SplitState) (ip : ℕ × PageCls) (l : List (ℕ × PageCls)) :
    runSplit s (ip :: l) = runSplit (stepPage s ip) l := rfl

theorem runSplit_append_left (s : SplitState) (l₁ l₂ : List (ℕ × PageCls)) :
    runSplit s (l₁ ++ l₂) = runSplit (l₁.foldl stepPage s) l₂ := by
  unfold runSplit
  rw [List.foldl_append]

theorem stepPage_groups_grow (s : SplitState) (ip : ℕ × PageCls) (g : PageGroup)
    (h : g ∈ s.groups) : g ∈ (stepPage s ip).groups := by
  rcases ip with ⟨i, pc⟩
  cases hft : pc.formType with
  | none => rw [stepPage_none s i pc hft]; exact h
  | some t =>
    by_cases hc : s.curType = some t
    · rw [stepPage_same s i pc t hft hc]; exact h
    · rw [stepPage_new s i pc t hft hc]
      exact List.mem_append_left _ h

theorem runSplit_groups_mem : ∀ (l : List (ℕ × PageCls)) (s : SplitState) (g : PageGroup),
    g ∈ s.groups → g ∈ runSplit s l := by
  intro l
  induction l with
  | nil => intro s g h; exact List.mem_append_left _ h
  | cons ip rest ih =>
    intro s g h
    rw [runSplit_cons]
    exact ih _ g (stepPage_groups_grow s ip g h)

theorem runSplit_cur_mem : ∀ (l : List (ℕ × PageCls)) (s : SplitState) (a b : ℕ),
    a ∈ s.curPages → b ∈ s.curPages →
    ∃ g ∈ runSplit s l, a ∈ g.pages ∧ b ∈ g.pages := by
  intro l
  induction l with
  | nil =>
    intro s a b ha hb
    exact ⟨flushGroup s, List.mem_append_right _ (List.mem_singleton_self _), ha, hb⟩
  | cons ip rest ih =>
    intro s a b ha hb
    rw [runSplit_cons]
    rcases ip with ⟨i, pc⟩
    cases hft : pc.formType with
    | none =>
      rw [stepPage_none s i pc hft]
      exact ih _ a b (List.mem_append_left _ ha) (List.mem_append_left _ hb)
    | some t =>
      by_cases hc : s.curType = some t
      · rw [stepPage_same s i pc t hft hc]
        exact ih _ a b (List.mem_append_left _ ha) (List.mem_append_left _ hb)
      · rw [stepPage_new s i pc t hft hc]
        refine ⟨flushGroup s, ?_, ha, hb⟩
        exact runSplit_groups_mem rest _ _ (List.mem_append_right _ (List.mem_singleton_self _))

theorem stepPage_cur_extends (s : SplitState) (i : ℕ) (pc : PageCls)
    (h : pc.formType = none ∨ (pc.formType ≠ none ∧ pc.formType = s.curType)) :
    (stepPage s (i, pc)).curPages = s.curPages ++ [i] := by
  rcases h with h | ⟨hne, heq⟩
  · rw [stepPage_none s i pc h]
  · cases hft : pc.formType with
    | none => exact absurd hft hne
    | some t =>
      rw [stepPage_same s i pc t hft (by rw [← heq, hft])]

theorem stepPage_curType_some (s : SplitState) (i : ℕ) (pc : PageCls) (t : String)
    (h : pc.formType = some t) : (stepPage s (i, pc)).curType = some t := by
  by_cases hc : s.curType = some t
  · rw [stepPage_same s i pc t h hc]; exact hc
  · rw [stepPage_new s i pc t h hc]

theorem runSplit_head : ∀ (l : List (ℕ × PageCls)) (s : SplitState) (g : PageGroup)
    (gs : List PageGroup), s.groups = g :: gs → (runSplit s l).head? = some g := by
  intro l
  induction l with
  | nil =>
    intro s g gs h
    unfold runSplit
    simp [h]
  | cons ip rest ih =>
    intro s g gs h
    rw [runSplit_cons]
    rcases ip with ⟨i, pc⟩
    cases hft : pc.formType with
    | none => exact ih _ g gs (by rw [stepPage_none s i pc hft]; exact h)
    | some t =>
      by_cases hc : s.curType = some t
      · exact ih _ g gs (by rw [stepPage_same s i pc t hft hc]; exact h)
      · exact ih _ g (gs ++ [flushGroup s])
          (by rw [stepPage_new s i pc t hft hc]; simp [h])

theorem runSplit_join : ∀ (l : List (ℕ × PageCls)) (s : SplitState),
    pagesOf (runSplit s l) = pagesOf s.groups ++ s.curPages ++ l.map Prod.fst := by
  intro l
  induction l with
  | nil =>
    intro s
    unfold runSplit
    simp [pagesOf_append, pagesOf, flushGroup]
  | cons ip rest ih =>
    intro s
    rw [runSplit_cons]
    rcases ip with ⟨i, pc⟩
    cases hft : pc.formType with
    | none =>
      rw [stepPage_none s i pc hft, ih]
      simp
    | some t =>
      by_cases hc : s.curType = some t
      · rw [stepPage_same s i pc t hft hc, ih]
        simp
      · rw [stepPage_new s i pc t hft hc, ih]
        simp [pagesOf_append, pagesOf, flushGroup]

theorem foldl_none_run : ∀ (l : List PageCls) (m : ℕ) (s : SplitState),
    (∀ pc ∈ l, pc.formType = none) →
    (List.enumFrom m l).foldl stepPage s =
      { s with curPages := s.curPages ++ List.range' m l.length } := by
  intro l
  induction l with
  | nil =>
    intro m s _
    simp [List.enumFrom]
  | cons pc rest ih =>
    intro m s hall
    have h0 : pc.formType = none := hall pc (List.mem_cons_self _ _)
    simp only [List.enumFrom, List.foldl_cons]
    rw [stepPage_none s m pc h0,
      ih (m+1) _ (fun p hp => hall p (List.mem_cons_of_mem _ hp))]
    simp only [List.length_cons, List.range'_succ]
    congr 1
    simp

theorem runSplit_contig : ∀ (l : List PageCls) (s : SplitState) (a k : ℕ),
    0 < k → s.curPages = List.range' a k →
    (∀ g ∈ s.groups, ∃ x n, g.pages = List.range' x (n+1)) →
    ∀ g ∈ runSplit s (List.enumFrom (a + k) l), ∃ x n, g.pages = List.range' x (n+1) := by
  intro l
  induction l with
  | nil =>
    intro s a k hk hcur hgs g hg
    unfold runSplit at hg
    simp only [List.enumFrom, List.foldl_nil] at hg
    rcases List.mem_append.mp hg with h | h
    · exact hgs g h
    · rw [List.mem_singleton.mp h]
      refine ⟨a, k - 1, ?_⟩
      simp only [flushGroup, hcur]
      congr 1
      omega
  | cons pc rest ih =>
    intro s a k hk hcur hgs g hg
    simp only [List.enumFrom, List.foldl_cons] at hg ⊢
    rw [runSplit_cons] at hg
    cases hft : pc.formType with
    | none =>
      rw [stepPage_none s (a+k) pc hft] at hg
      refine ih _ a (k+1) (Nat.succ_pos k) ?_ ?_ g hg
      · show s.curPages ++ [a + k] = List.range' a (k + 1)
        rw [hcur, List.range'_concat]
        simp
      · exact hgs
    | some t =>
      by_cases hc : s.curType = some t
      · rw [stepPage_same s (a+k) pc t hft hc] at hg
        refine ih _ a (k+1) (Nat.succ_pos k) ?_ ?_ g hg
        · show s.curPages ++ [a + k] = List.range' a (k + 1)
          rw [hcur, List.range'_concat]
          simp
        · exact hgs
      · rw [stepPage_new s (a+k) pc t hft hc] at hg
        refine ih _ (a+k) 1 Nat.one_pos rfl ?_ g hg
        intro g hg'
        rcases List.mem_append.mp hg' with h | h
        · exact hgs g h
        · rw [List.mem_singleton.mp h]
          refine ⟨a, k - 1, ?_⟩
          simp only [flushGroup, hcur]
          congr 1
          omega



theorem stepPage_cur_last (s : SplitState) (ip : ℕ × PageCls) :
    ip.1 ∈ (stepPage s ip).curPages := by
  rcases ip with ⟨i, pc⟩
  cases hft : pc.formType with
  | none =>
    rw [stepPage_none s i pc hft]
    exact List.mem_append_right _ (List.mem_singleton_self _)
  | some t =>
    by_cases hc : s.curType = some t
    · rw [stepPage_same s i pc t hft hc]
      exact List.mem_append_right _ (List.mem_singleton_self _)
    · rw [stepPage_new s i pc t hft hc]
      exact List.mem_singleton_self _

theorem stepPage_curType_none (s : SplitState) (i : ℕ) (pc : PageCls)
    (h : pc.formType = none) : (stepPage s (i, pc)).curType = s.curType := by
  rw [stepPage_none s i pc h]

theorem run_core (p0 : PageCls) (rest : List PageCls) (i k : ℕ) (q : PageCls)
    (hq : rest.get? (i + k) = some q)
    (hmid : ∀ m pm, i ≤ m → m < i + k → rest.get? m = some pm → pm.formType = none)
    (hcase : q.formType = none ∨
      (∃ p t, (p0 :: rest).get? i = some p ∧ p.formType = some t ∧ q.formType = some t)) :
    inSameGroup (runSplit ⟨[], [0], p0.formType, p0.payer, p0.priority⟩ (rest.enumFrom 1))
      i (i + k + 1) := by
  have hiklen : i + k < rest.length := by
    by_contra hle
    rw [List.get?_eq_none.mpr (by omega)] at hq
    cases hq
  -- the middle segment of unclassified pages
  set mid : List PageCls := (rest.drop i).take k with hmiddef
  have hmidlen : mid.length = k := by
    rw [hmiddef, List.length_take, List.length_drop]
    omega
  have hmidnone : ∀ pm ∈ mid, pm.formType = none := by
    intro pm hpm
    obtain ⟨n, hn, hget⟩ := List.getElem_of_mem hpm
    have hnk : n < k := by omega
    refine hmid (i + n) pm (by omega) (by omega) ?_
    rw [List.get?_eq_getElem?, ← List.getElem?_drop, ← List.getElem?_take_of_lt hnk,
      ← hmiddef, List.getElem?_eq_getElem hn, hget]
  have hqi : rest[i + k] = q := by
    have h1 : rest[i + k]? = some q := by rw [← List.get?_eq_getElem?]; exact hq
    have h2 : rest[i + k]? = some (rest[i + k]) := List.getElem?_eq_getElem hiklen
    rw [h1] at h2
    exact (Option.some.inj h2).symm
  have hdrop1 : rest.drop i = mid ++ rest.drop (i + k) := by
    rw [hmiddef]
    conv_lhs => rw [← List.take_append_drop k (rest.drop i)]
    rw [List.drop_drop, Nat.add_comm i k]
  have hdrop2 : rest.drop (i + k) = q :: rest.drop (i + k + 1) := by
    rw [List.drop_eq_getElem_cons hiklen, hqi]
  have hdecomp : rest = rest.take i ++ (mid ++ q :: rest.drop (i + k + 1)) := by
    conv_lhs => rw [← List.take_append_drop i rest, hdrop1, hdrop2]
  have hgoal : runSplit (⟨[], [0], p0.formType, p0.payer, p0.priority⟩ : SplitState)
      (rest.enumFrom 1) =
      runSplit ((List.enumFrom 1 (rest.take i)).foldl stepPage
          ⟨[], [0], p0.formType, p0.payer, p0.priority⟩)
        (List.enumFrom (1 + i) (mid ++ q :: rest.drop (i + k + 1))) := by
    conv_lhs => rw [hdecomp]
    rw [List.enumFrom_append, runSplit_append_left, List.length_take,
      Nat.min_eq_left (by omega)]
  rw [inSameGroup, hgoal]
  have key : ∀ s1 : SplitState, i ∈ s1.curPages →
      (q.formType = none ∨ (q.formType ≠ none ∧ q.formType = s1.curType)) →
      ∃ g ∈ runSplit s1 (List.enumFrom (1 + i) (mid ++ q :: rest.drop (i + k + 1))),
        i ∈ g.pages ∧ (i + k + 1) ∈ g.pages := by
    intro s1 hi hqc
    rw [show List.enumFrom (1 + i) (mid ++ q :: rest.drop (i + k + 1)) =
        List.enumFrom (1 + i) mid ++
          List.enumFrom (1 + i + mid.length) (q :: rest.drop (i + k + 1)) from
      List.enumFrom_append _ _ _, runSplit_append_left,
      foldl_none_run mid (1 + i) s1 hmidnone, hmidlen]
    have hcons : List.enumFrom (1 + i + k) (q :: rest.drop (i + k + 1)) =
        (1 + i + k, q) :: List.enumFrom (1 + i + k + 1) (rest.drop (i + k + 1)) := rfl
    rw [hcons, runSplit_cons]
    have hqc' : q.formType = none ∨ (q.formType ≠ none ∧ q.formType =
        ({ s1 with curPages := s1.curPages ++ List.range' (1 + i) k } : SplitState).curType) :=
      hqc
    have hext := stepPage_cur_extends _ (1 + i + k) q hqc'
    refine runSplit_cur_mem _ _ i (i + k + 1) ?_ ?_
    · rw [hext]
      exact List.mem_append_left _ (List.mem_append_left _ hi)
    · rw [hext, show 1 + i + k = i + k + 1 by omega]
      exact List.mem_append_right _ (List.mem_singleton_self _)
  rcases Nat.eq_zero_or_pos i with hi0 | hipos
  · subst hi0
    refine key _ (by simp) ?_
    rcases hcase with hn | ⟨p, t, hp, hpt, hqt⟩
    · exact Or.inl hn
    · right
      have hpp0 : p = p0 := by
        rw [List.get?_cons_zero] at hp
        exact (Option.some.inj hp).symm
      refine ⟨by rw [hqt]; simp, ?_⟩
      show q.formType = p0.formType
      rw [hqt, ← hpt, hpp0]
  · have hi1len : i - 1 < rest.length := by omega
    have hptake : rest.take i = rest.take (i - 1) ++ [rest[i - 1]] := by
      conv_lhs => rw [show i = (i - 1) + 1 by omega]
      rw [List.take_succ, List.getElem?_eq_getElem hi1len]
      rfl
    have henum : List.enumFrom 1 (rest.take i) =
        List.enumFrom 1 (rest.take (i - 1)) ++ [(i, rest[i - 1])] := by
      rw [hptake, List.enumFrom_append, List.length_take,
        Nat.min_eq_left (by omega), show 1 + (i - 1) = i by omega]
      rfl
    have hfold : (List.enumFrom 1 (rest.take i)).foldl stepPage
        (⟨[], [0], p0.formType, p0.payer, p0.priority⟩ : SplitState) =
        stepPage ((List.enumFrom 1 (rest.take (i - 1))).foldl stepPage
          ⟨[], [0], p0.formType, p0.payer, p0.priority⟩) (i, rest[i - 1]) := by
      rw [henum, List.foldl_append]
      rfl
    rw [hfold]
    refine key _ ?_ ?_
    · exact stepPage_cur_last _ (i, rest[i - 1])
    · rcases hcase with hn | ⟨p, t, hp, hpt, hqt⟩
      · exact Or.inl hn
      · right
        have hpi : p = rest[i - 1] := by
          have : (p0 :: rest).get? i = rest.get? (i - 1) := by
            conv_lhs => rw [show i = (i - 1) + 1 by omega]
            exact List.get?_cons_succ
          rw [this] at hp
          have h1 : rest[i - 1]? = some p := by rw [← List.get?_eq_getElem?]; exact hp
          have h2 : rest[i - 1]? = some rest[i - 1] := List.getElem?_eq_getElem hi1len
          rw [h1] at h2
          exact Option.some.inj h2
        refine ⟨by rw [hqt]; simp, ?_⟩
        rw [hqt, stepPage_curType_some _ _ _ t (hpi ▸ hpt)]

/-- C3: whenever the page-level splitter returns a list of groups, the
concatenation of the groups' page-index lists is exactly
`range(num_pages)` (in order, hence also after sorting: no duplicate, no
omission); every group's index list is a nonempty contiguous run; and a
group boundary never falls inside a run of pages of one classified type:
two classified pages of the same type separated only by unclassified
pages always land in the same group, and an unclassified page always
lands in the group of the page before it, so a boundary can appear only
where the classified type changes. -/
theorem claim3_page_partition (pcs : List PageCls) (groups : List PageGroup)
    (h : classifyPdfPages pcs = some groups) :
    pagesOf groups = List.range pcs.length ∧
    (∀ g ∈ groups, ∃ x n, g.pages = List.range' x (n + 1)) ∧
    (∀ i k p q t, pcs.get? i = some p → pcs.get? (i + k + 1) = some q →
      p.formType = some t → q.formType = some t →
      (∀ m pm, i < m → m < i + k + 1 → pcs.get? m = some pm → pm.formType = none) →
      inSameGroup groups i (i + k + 1)) ∧
    (∀ j q, pcs.get? (j + 1) = some q → q.formType = none →
      inSameGroup groups j (j + 1)) := by
  unfold classifyPdfPages at h
  rcases pcs with _ | ⟨p0, rest⟩
  · simp at h
  · split_ifs at h with h1 h2
    have hg : groups = runSplit ⟨[], [0], p0.formType, p0.payer, p0.priority⟩
        (rest.enumFrom 1) := (Option.some.inj h).symm
    subst hg
    refine ⟨?_, ?_, ?_, ?_⟩
    · rw [runSplit_join]
      simp only [pagesOf, List.nil_append, List.enumFrom_map_fst, List.length_cons,
        List.range_eq_range']
      rw [List.range'_succ]
      rfl
    · intro g hgmem
      refine runSplit_contig rest _ 0 1 Nat.one_pos rfl ?_ g hgmem
      intro g' hg'
      simp at hg'
    · intro i k p q t hp hq hpt hqt hmid
      refine run_core p0 rest i k q (by rw [← hq]; rfl) ?_ (Or.inr ⟨p, t, hp, hpt, hqt⟩)
      intro m pm hm1 hm2 hrm
      exact hmid (m + 1) pm (by omega) (by omega) hrm
    · intro j q hq hqn
      refine run_core p0 rest j 0 q (by rw [← hq]; rfl) ?_ (Or.inl hqn)
      intro m pm hm1 hm2 _
      omega

/-- Witness for C3 on a four-page document classified W-2, unclassified,
W-2, 1099-INT: the pages form one W-2 run (indices 0-2, with the
unclassified page 1 inside it) and one 1099-INT group. -/
theorem claim3_witness :
    classifyPdfPages
        [⟨some "W-2", "A", 1⟩, ⟨none, "", 99⟩, ⟨some "W-2", "", 1⟩,
          ⟨some "1099-INT", "B", 2⟩] =
      some [⟨[0, 1, 2], "W-2", "A", 1⟩, ⟨[3], "1099-INT", "B", 2⟩] ∧
    pagesOf [⟨[0, 1, 2], "W-2", "A", 1⟩, ⟨[3], "1099-INT", "B", 2⟩] = List.range 4 ∧
    inSameGroup [⟨[0, 1, 2], "W-2", "A", 1⟩, ⟨[3], "1099-INT", "B", 2⟩] 0 2 ∧
    inSameGroup [⟨[0, 1, 2], "W-2", "A", 1⟩, ⟨[3], "1099-INT", "B", 2⟩] 0 1 := by
  have hcl : classifyPdfPages
      [⟨some "W-2", "A", 1⟩, ⟨none, "", 99⟩, ⟨some "W-2", "", 1⟩,
        ⟨some "1099-INT", "B", 2⟩] =
      some [⟨[0, 1, 2], "W-2", "A", 1⟩, ⟨[3], "1099-INT", "B", 2⟩] := by decide
  have h := claim3_page_partition _ _ hcl
  refine ⟨hcl, h.1, ?_, h.2.2.2 0 ⟨none, "", 99⟩ rfl rfl⟩
  refine h.2.2.1 0 1 ⟨some "W-2", "A", 1⟩ ⟨some "W-2", "", 1⟩ "W-2" rfl rfl rfl rfl ?_
  intro m pm hm1 hm2 hm
  have hm1' : m = 1 := by omega
  subst hm1'
  have : (⟨none, "", 99⟩ : PageCls) = pm := Option.some.inj hm
  rw [← this]

/-- C10: when the splitter splits a document whose leading `lead` pages
are unclassified (under-50-character text or no rule match, which the
caller records as `(None, '', 99)`), those leading pages are emitted as
their own first group `(range lead, 'Other', '', 99)`, not merged into
any following group; and an unclassified page that follows any page is
attached to that preceding page's group. -/
theorem claim10_leading_other_group (pcs : List PageCls) (groups : List PageGroup)
    (h : classifyPdfPages pcs = some groups)
    (hshape : ∀ p ∈ pcs, p.formType = none → p.payer = "" ∧ p.priority = 99)
    (lead : ℕ) (hpos : 0 < lead)
    (hrun : ∀ p ∈ pcs.take lead, p.formType = none)
    (pl : PageCls) (hstop : pcs.get? lead = some pl) (hplt : pl.formType ≠ none) :
    groups.head? = some ⟨List.range lead, "Other", "", 99⟩ ∧
    (∀ j q, pcs.get? (j + 1) = some q → q.formType = none →
      inSameGroup groups j (j + 1)) := by
  unfold classifyPdfPages at h
  rcases pcs with _ | ⟨p0, rest⟩
  · simp at h
  · split_ifs at h with h1 h2
    have hg : groups = runSplit ⟨[], [0], p0.formType, p0.payer, p0.priority⟩
        (rest.enumFrom 1) := (Option.some.inj h).symm
    subst hg
    constructor
    · -- the leading unclassified run is flushed as its own first group
      have hp0mem : p0 ∈ (p0 :: rest).take lead := by
        rw [show lead = (lead - 1) + 1 by omega]
        exact List.mem_cons_self _ _
      have hp0ft : p0.formType = none := hrun p0 hp0mem
      have hp0shape := hshape p0 (List.mem_cons_self _ _) hp0ft
      have hs0 : (⟨[], [0], p0.formType, p0.payer, p0.priority⟩ : SplitState) =
          ⟨[], [0], none, "", 99⟩ := by
        rw [hp0ft, hp0shape.1, hp0shape.2]
      rw [hs0]
      -- position of the first classified page inside rest
      have hstopr : rest.get? (lead - 1) = some pl := by
        rw [← hstop]
        conv_rhs => rw [show lead = (lead - 1) + 1 by omega]
        rfl
      have hlenr : lead - 1 < rest.length := by
        by_contra hle
        rw [List.get?_eq_none.mpr (by omega)] at hstopr
        cases hstopr
      have hplr : rest[lead - 1] = pl := by
        have ha : rest[lead - 1]? = some pl := by rw [← List.get?_eq_getElem?]; exact hstopr
        have hb : rest[lead - 1]? = some rest[lead - 1] := List.getElem?_eq_getElem hlenr
        rw [ha] at hb
        exact (Option.some.inj hb).symm
      have hdrop : rest.drop (lead - 1) = pl :: rest.drop lead := by
        rw [List.drop_eq_getElem_cons hlenr, hplr, show lead - 1 + 1 = lead by omega]
      have hsplit : List.enumFrom 1 rest =
          List.enumFrom 1 (rest.take (lead - 1)) ++
            List.enumFrom lead (pl :: rest.drop lead) := by
        conv_lhs => rw [← List.take_append_drop (lead - 1) rest, hdrop]
        rw [List.enumFrom_append, List.length_take, Nat.min_eq_left (le_of_lt hlenr),
          show 1 + (lead - 1) = lead by omega]
      rw [hsplit, runSplit_append_left]
      have hruntake : ∀ p ∈ rest.take (lead - 1), p.formType = none := by
        intro p hp
        refine hrun p ?_
        rw [show lead = (lead - 1) + 1 by omega]
        exact List.mem_cons_of_mem _ hp
      rw [foldl_none_run (rest.take (lead - 1)) 1 _ hruntake]
      have hcur : ([0] : List ℕ) ++ List.range' 1 (rest.take (lead - 1)).length =
          List.range lead := by
        rw [List.length_take, Nat.min_eq_left (le_of_lt hlenr), List.range_eq_range']
        conv_rhs => rw [show lead = (lead - 1) + 1 by omega, List.range'_succ]
        rfl
      rcases hplft : pl.formType with _ | t
      · exact absurd hplft hplt
      · have hstep : stepPage ⟨[], [0] ++ List.range' 1 (rest.take (lead - 1)).length,
            none, "", 99⟩ (lead, pl) =
            ⟨[flushGroup ⟨[], [0] ++ List.range' 1 (rest.take (lead - 1)).length,
              none, "", 99⟩], [lead], some t, pl.payer, pl.priority⟩ := by
          rw [stepPage_new _ lead pl t hplft (by simp)]
          rfl
        have hflush : flushGroup ⟨[], [0] ++ List.range' 1 (rest.take (lead - 1)).length,
            none, "", 99⟩ = ⟨List.range lead, "Other", "", 99⟩ := by
          unfold flushGroup pyOrOther
          rw [hcur]
        have hcons : List.enumFrom lead (pl :: rest.drop lead) =
            (lead, pl) :: List.enumFrom (lead + 1) (rest.drop lead) := rfl
        rw [hcons, runSplit_cons, hstep, hflush]
        exact runSplit_head _ _ _ [] rfl
    · intro j q hq hqn
      refine run_core p0 rest j 0 q (by rw [← hq]; rfl) ?_ (Or.inl hqn)
      intro m pm hm1 hm2 _
      omega

/-- Witness for C10 on a four-page document with an unclassified first
page, and an unclassified third page that is attached to the preceding
W-2 group. -/
theorem claim10_witness :
    classifyPdfPages
        [⟨none, "", 99⟩, ⟨some "W-2", "A", 1⟩, ⟨none, "", 99⟩, ⟨some "1099-INT", "B", 2⟩] =
      some [⟨[0], "Other", "", 99⟩, ⟨[1, 2], "W-2", "A", 1⟩, ⟨[3], "1099-INT", "B", 2⟩] ∧
    ([⟨[0], "Other", "", 99⟩, ⟨[1, 2], "W-2", "A", 1⟩,
      ⟨[3], "1099-INT", "B", 2⟩] : List PageGroup).head? =
        some ⟨List.range 1, "Other", "", 99⟩ ∧
    inSameGroup [⟨[0], "Other", "", 99⟩, ⟨[1, 2], "W-2", "A", 1⟩,
      ⟨[3], "1099-INT", "B", 2⟩] 1 2 := by
  have hcl : classifyPdfPages
      [⟨none, "", 99⟩, ⟨some "W-2", "A", 1⟩, ⟨none, "", 99⟩, ⟨some "1099-INT", "B", 2⟩] =
      some [⟨[0], "Other", "", 99⟩, ⟨[1, 2], "W-2", "A", 1⟩, ⟨[3], "1099-INT", "B", 2⟩] := by
    decide
  have h := claim10_leading_other_group _ _ hcl (by decide) 1 Nat.one_pos (by decide)
    ⟨some "W-2", "A", 1⟩ rfl (by decide)
  exact ⟨hcl, h.1, h.2 1 ⟨none, "", 99⟩ rfl rfl⟩

/-! ## Claims C4 and C5 (the `parse_w2` consistency repair) -/

theorem blockA_of_not_medi (d : W2Boxes) (h : ¬ mediHolds d) : repairBlockA d = d := by
  unfold repairBlockA
  by_cases h1 : 0 < d.box3 ∧ 0 < d.box4
  · rw [if_pos h1, if_neg (fun h2 => h ⟨h1, h2⟩)]
  · rw [if_neg h1]

theorem blockA_box1 (d : W2Boxes) : (repairBlockA d).box1 = d.box1 := by
  unfold repairBlockA
  split_ifs <;> rfl

theorem blockA_box2 (d : W2Boxes) : (repairBlockA d).box2 = d.box2 := by
  unfold repairBlockA
  split_ifs <;> rfl

theorem blockB_box3 (d : W2Boxes) : (repairBlockB d).box3 = d.box3 := by
  unfold repairBlockB
  split_ifs <;> rfl

theorem blockB_box4_of_not_medi (d : W2Boxes) (h : ¬ mediHolds d) :
    (repairBlockB d).box4 = d.box4 := by
  unfold repairBlockB
  split_ifs with h1 h2 h3 h4 <;> first | rfl | exact absurd ⟨h2, h3⟩ h

theorem not_medi_postA (d : W2Boxes) : ¬ mediHolds (repairBlockA d) := by
  unfold repairBlockA
  split_ifs with h1 h2 h3 h4
  · -- full swap: the new 3/4 rate is the old 5/6 rate, in the SS band
    rintro ⟨⟨_, _⟩, _, hhi⟩
    simp only [] at hhi
    linarith [h4.1]
  · -- backfill with boxes 5/6 present
    rintro ⟨⟨hp3, hp4⟩, hlo, hhi⟩
    simp only [] at hp3 hp4 hlo hhi
    exact backfill_not_medi d.box3 h1.1 ⟨hp4, hlo, hhi⟩
  · -- backfill with boxes 5/6 absent
    rintro ⟨⟨hp3, hp4⟩, hlo, hhi⟩
    simp only [] at hp3 hp4 hlo hhi
    exact backfill_not_medi d.box3 h1.1 ⟨hp4, hlo, hhi⟩
  · exact fun hm => h2 hm.2
  · exact fun hm => h1 hm.1

theorem blockB_idem_of_not_medi (e : W2Boxes) (h : ¬ mediHolds e) :
    repairBlockB (repairBlockB e) = repairBlockB e := by
  by_cases h1 : |e.box5 - e.box1| < 1/100 ∧ |e.box6 - e.box2| < 1/100
  · by_cases h2 : 0 < e.box3 ∧ 0 < e.box4
    · by_cases h3 : 12/1000 < e.box4 / e.box3 ∧ e.box4 / e.box3 < 18/1000
      · exact absurd ⟨h2, h3⟩ h
      · by_cases h4 : 55/1000 < e.box4 / e.box3 ∧ e.box4 / e.box3 < 70/1000
        · have hfirst : repairBlockB e =
              { e with box5 := e.box3, box6 := round2 (e.box3 * (145/10000)) } := by
            unfold repairBlockB
            rw [if_pos h1, if_pos h2, if_neg h3, if_pos h4]
          rw [hfirst]
          set s : W2Boxes :=
            { e with box5 := e.box3, box6 := round2 (e.box3 * (145/10000)) } with hs
          by_cases h1' : |s.box5 - s.box1| < 1/100 ∧ |s.box6 - s.box2| < 1/100
          · unfold repairBlockB
            rw [if_pos h1', if_pos (show (0:ℚ) < s.box3 ∧ (0:ℚ) < s.box4 from h2),
              if_neg (show ¬ ((12:ℚ)/1000 < s.box4 / s.box3 ∧
                s.box4 / s.box3 < 18/1000) from h3),
              if_pos (show (55:ℚ)/1000 < s.box4 / s.box3 ∧
                s.box4 / s.box3 < 70/1000 from h4)]
          · unfold repairBlockB
            rw [if_neg h1']
        · have hfirst : repairBlockB e = e := by
            unfold repairBlockB
            rw [if_pos h1, if_pos h2, if_neg h3, if_neg h4]
          rw [hfirst, hfirst]
    · have hfirst : repairBlockB e = e := by
        unfold repairBlockB
        rw [if_pos h1, if_neg h2]
      rw [hfirst, hfirst]
  · have hfirst : repairBlockB e = e := by
      unfold repairBlockB
      rw [if_neg h1]
    rw [hfirst, hfirst]



/-- C4, amended: the W-2 consistency repair (both rate-based blocks of
`parse_w2`) is idempotent — applying it twice yields the same box values
as applying it once, for every input; and it never modifies the
SS-labeled pair (boxes 3/4) when that pair's implied rate already lies
within the SS band.  The original claim's stronger guarantee — that no
pair whose rate is in its own band is ever modified — fails for the
Medicare-labeled pair (see the counterexample), which the backfill arm
overwrites whenever the SS pair's rate falls in the Medicare band. -/
theorem claim4_repair_idempotent :
    (∀ d : W2Boxes, w2Repair (w2Repair d) = w2Repair d) ∧
    (∀ d : W2Boxes, ssRateBand d.box3 d.box4 →
      (w2Repair d).box3 = d.box3 ∧ (w2Repair d).box4 = d.box4) := by
  constructor
  · intro d
    have hA : ¬ mediHolds (repairBlockA d) := not_medi_postA d
    have hA2 : ¬ mediHolds (repairBlockB (repairBlockA d)) := by
      unfold mediHolds at hA ⊢
      rw [blockB_box3, blockB_box4_of_not_medi _ hA]
      exact hA
    show repairBlockB (repairBlockA (repairBlockB (repairBlockA d))) = _
    rw [blockA_of_not_medi _ hA2]
    exact blockB_idem_of_not_medi _ hA
  · intro d hband
    have h4pos : 0 < d.box4 := by
      have h := hband.2.1
      rw [lt_div_iff₀ hband.1] at h
      nlinarith [hband.1]
    have hnm : ¬ mediHolds d := by
      rintro ⟨_, _, hhi⟩
      have := hband.2.1
      linarith
    unfold w2Repair
    rw [blockA_of_not_medi d hnm]
    exact ⟨blockB_box3 d, blockB_box4_of_not_medi d hnm⟩

/-- C4, counterexample: with boxes 3/4 = (50000, 725) and boxes
5/6 = (60000, 870), the Medicare pair's implied rate 1.45% lies inside
its expected band (1.2%–1.8%), yet the repair overwrites it with
(50000, 725) — refuting "never modifies a (wages, tax) pair whose
implied rate already lies within that pair's expected rate band". -/
theorem claim4_counterexample :
    mediRateBand (⟨0, 0, 50000, 725, 60000, 870⟩ : W2Boxes).box5
      (⟨0, 0, 50000, 725, 60000, 870⟩ : W2Boxes).box6 ∧
    (w2Repair ⟨0, 0, 50000, 725, 60000, 870⟩).box5 ≠ 60000 ∧
    (w2Repair ⟨0, 0, 50000, 725, 60000, 870⟩).box6 ≠ 870 := by
  have hA : repairBlockA ⟨0, 0, 50000, 725, 60000, 870⟩ =
      ⟨0, 0, 50000, round2 (50000 * (62/1000)), 50000, 725⟩ := by
    unfold repairBlockA
    rw [if_pos (by norm_num), if_pos (by norm_num), if_pos (by norm_num),
      if_neg (by norm_num)]
  have hround : round2 ((50000 : ℚ) * (62/1000)) = 3100 := by
    norm_num [round2, rhe]
  have hB : w2Repair ⟨0, 0, 50000, 725, 60000, 870⟩ =
      ⟨0, 0, 50000, 3100, 50000, 725⟩ := by
    unfold w2Repair
    rw [hA, hround]
    unfold repairBlockB
    rw [if_neg (by norm_num)]
  refine ⟨?_, ?_, ?_⟩
  · unfold mediRateBand
    norm_num
  · rw [hB]; norm_num
  · rw [hB]; norm_num

/-- Witness for C4's amended statement: idempotence at a concrete input,
and preservation of an in-band SS pair (40000, 2480). -/
theorem claim4_witness :
    w2Repair (w2Repair ⟨0, 0, 50000, 725, 60000, 870⟩) =
      w2Repair ⟨0, 0, 50000, 725, 60000, 870⟩ ∧
    ssRateBand (⟨0, 0, 40000, 2480, 50000, 725⟩ : W2Boxes).box3
      (⟨0, 0, 40000, 2480, 50000, 725⟩ : W2Boxes).box4 ∧
    (w2Repair ⟨0, 0, 40000, 2480, 50000, 725⟩).box3 = 40000 ∧
    (w2Repair ⟨0, 0, 40000, 2480, 50000, 725⟩).box4 = 2480 := by
  have hband : ssRateBand (⟨0, 0, 40000, 2480, 50000, 725⟩ : W2Boxes).box3
      (⟨0, 0, 40000, 2480, 50000, 725⟩ : W2Boxes).box4 := by
    unfold ssRateBand
    norm_num
  have h := claim4_repair_idempotent.2 ⟨0, 0, 40000, 2480, 50000, 725⟩ hband
  exact ⟨claim4_repair_idempotent.1 _, hband, h.1, h.2⟩

/-- C5: on the documented input — SS pair (50000, 725) at rate 1.45%,
Medicare pair (50000, 3100) at rate 6.2% (boxes 1/2 unextracted, 0) —
the repair swaps the two full pairs; and in general the full swap fires
exactly when the SS pair's rate lies in the Medicare band (1.2%–1.8%)
and the Medicare pair's rate lies in the SS band (5.5%–7.0%), both over
positive wages. -/
theorem claim5_full_swap :
    w2Repair ⟨0, 0, 50000, 725, 50000, 3100⟩ = ⟨0, 0, 50000, 3100, 50000, 725⟩ ∧
    (∀ d : W2Boxes, fullSwapFires d ↔
      (mediRateBand d.box3 d.box4 ∧ ssRateBand d.box5 d.box6)) ∧
    (∀ d : W2Boxes, fullSwapFires d →
      repairBlockA d =
        { d with box3 := d.box5, box4 := d.box6, box5 := d.box3, box6 := d.box4 }) := by
  have hswap : ∀ d : W2Boxes, fullSwapFires d →
      repairBlockA d =
        { d with box3 := d.box5, box4 := d.box6, box5 := d.box3, box6 := d.box4 } := by
    rintro d ⟨h3, h4, hr34, h5, h6, hr56⟩
    unfold repairBlockA
    rw [if_pos ⟨h3, h4⟩, if_pos hr34, if_pos ⟨h5, h6⟩, if_pos hr56]
  refine ⟨?_, ?_, hswap⟩
  · have hfires : fullSwapFires ⟨0, 0, 50000, 725, 50000, 3100⟩ := by
      unfold fullSwapFires
      norm_num
    unfold w2Repair
    rw [hswap _ hfires]
    unfold repairBlockB
    rw [if_neg (by norm_num)]
  · intro d
    unfold fullSwapFires mediRateBand ssRateBand
    constructor
    · rintro ⟨h3, h4, hr34, h5, h6, hr56⟩
      exact ⟨⟨h3, hr34⟩, ⟨h5, hr56⟩⟩
    · rintro ⟨⟨h3, hr34⟩, ⟨h5, hr56⟩⟩
      have h4 : 0 < d.box4 := by
        have h := hr34.1
        rw [lt_div_iff₀ h3] at h
        nlinarith [h3]
      have h6 : 0 < d.box6 := by
        have h := hr56.1
        rw [lt_div_iff₀ h5] at h
        nlinarith [h5]
      exact ⟨h3, h4, hr34, h5, h6, hr56⟩

/-- Witness for C5: the swap guard holds and the first block performs
the full swap at the documented input. -/
theorem claim5_witness :
    fullSwapFires ⟨0, 0, 50000, 725, 50000, 3100⟩ ∧
    repairBlockA ⟨0, 0, 50000, 725, 50000, 3100⟩ = ⟨0, 0, 50000, 3100, 50000, 725⟩ := by
  have hfires : fullSwapFires ⟨0, 0, 50000, 725, 50000, 3100⟩ := by
    unfold fullSwapFires
    norm_num
  exact ⟨hfires, claim5_full_swap.2.2 _ hfires⟩

end TaxDocs
